import Mathlib

/-!
Verification of the protocol-adaptation core of the vibed-webui repository:
the newline-delimited-JSON and SSE stream decoders of `ollamaService.ts`,
the proxy path rewriting and header forwarding of `server.js`, and the
mock-fallback logic of the alternate service iteration.

Buffers and paths are modelled as `List Char` (the sources are ASCII), and
JavaScript's `JSON.parse` is modelled by an executable fueled parser over a
`Json` value type.  Stateful decode loops become explicit state passing:
each network-chunk arrival is a pure function from (buffer, emitted chunks)
to (buffer, emitted chunks).
-/

namespace Vibed

/-- Convert a string literal to the character-list representation used by the
buffer model. -/
def str2l (s : String) : List Char := s.data

/-- The whitespace test used by the model of JavaScript `String.prototype.trim`
(ASCII whitespace: space, tab, newline, carriage return, form feed, vertical tab). -/
def isJsWs (c : Char) : Bool :=
  c = ' ' || c = '\t' || c = '\n' || c = '\r' || c = '\x0c' || c = '\x0b'

/-- Model of JavaScript `String.prototype.trim`: drop whitespace from both ends. -/
def jsTrim (l : List Char) : List Char :=
  ((l.dropWhile isJsWs).reverse.dropWhile isJsWs).reverse

/-- Index of the first newline in a list, if any; models
`buffer.indexOf(newline, s)` applied to the suffix starting at `s`. -/
def firstNl : List Char → Option Nat
  | [] => none
  | c :: cs => if c = '\n' then some 0 else (firstNl cs).map (· + 1)

/-- Index of the first occurrence of a (non-empty) pattern in a list; models
JavaScript `String.prototype.indexOf` with a string argument. -/
def findSub (pat : List Char) : List Char → Option Nat
  | [] => if pat.isEmpty then some 0 else none
  | c :: cs =>
    if pat.isPrefixOf (c :: cs) then some 0 else (findSub pat cs).map (· + 1)

/-- Whether a pattern occurs in a list; models JavaScript `String.prototype.includes`. -/
def containsSub (pat l : List Char) : Bool := (findSub pat l).isSome

/-- Model of JavaScript `String.prototype.replace` with a plain-string pattern:
replace the first occurrence only. -/
def replaceFirst (pat repl l : List Char) : List Char :=
  match findSub pat l with
  | none => l
  | some i => l.take i ++ repl ++ l.drop (i + pat.length)

/-- Split a character stream into its complete newline-terminated lines and the
trailing partial segment after the last newline. -/
def lineSplit : List Char → List (List Char) × List Char
  | [] => ([], [])
  | c :: cs =>
    let r := lineSplit cs
    if c = '\n' then ([] :: r.1, r.2)
    else
      match r.1 with
      | [] => ([], c :: r.2)
      | line :: rest => ((c :: line) :: rest, r.2)

end Vibed

namespace Vibed

/-- The JSON value model for the payloads handled by the decoders.  Numbers are
kept as a decimal mantissa and power-of-ten exponent; none of the modelled code
performs numeric computation on payload fields. -/
inductive Json where
  | null : Json
  | bool (b : Bool) : Json
  | num (mantissa : Int) (exp10 : Int) : Json
  | str (s : String) : Json
  | arr (elems : List Json) : Json
  | obj (fields : List (String × Json)) : Json

/-- Whether a JSON value is the literal `null` (the only payload shape on which
the decoders' field accesses throw). -/
def Json.isNull : Json → Bool
  | .null => true
  | _ => false

/-- JavaScript truthiness of a JSON value. -/
def Json.truthy : Json → Bool
  | .null => false
  | .bool b => b
  | .num m _ => m ≠ 0
  | .str s => s ≠ ""
  | .arr _ => true
  | .obj _ => true

/-- First binding of a field name in a JSON object field list. -/
def lookupField : List (String × Json) → String → Option Json
  | [], _ => none
  | (k, v) :: rest, key => if k = key then some v else lookupField rest key

/-- Property access `v[k]` on a non-null JavaScript value: a field of an object,
`undefined` (here `none`) on anything else.  Access on `null` throws and is
handled separately by the callers that can reach it. -/
def jsGetOpt (j : Json) (k : String) : Option Json :=
  match j with
  | .obj fields => lookupField fields k
  | _ => none

/-- Index access `v[n]` on a truthy JavaScript value: an array element, a
one-character string of a string, a numeric-keyed field of an object, and
`undefined` otherwise. -/
def jsIndexOpt (j : Json) (n : Nat) : Option Json :=
  match j with
  | .arr elems => elems.get? n
  | .str s => (s.data.get? n).map (fun c => Json.str (String.mk [c]))
  | .obj fields => lookupField fields (Nat.repr n)
  | _ => none

/-- String coercion used when a payload field is concatenated onto the
accumulated response text.  All payloads in the modelled protocol carry
string content. -/
def jsToStr : Json → String
  | .null => "null"
  | .bool true => "true"
  | .bool false => "false"
  | .num m _ => toString m
  | .str s => s
  | .arr _ => ""
  | .obj _ => ""

/-- Decode one hexadecimal digit. -/
def hexDigit (c : Char) : Option Nat :=
  if '0' ≤ c ∧ c ≤ '9' then some (c.toNat - '0'.toNat)
  else if 'a' ≤ c ∧ c ≤ 'f' then some (c.toNat - 'a'.toNat + 10)
  else if 'A' ≤ c ∧ c ≤ 'F' then some (c.toNat - 'A'.toNat + 10)
  else none

/-- Skip JSON whitespace. -/
def skipWs (l : List Char) : List Char :=
  l.dropWhile (fun c => c = ' ' || c = '\t' || c = '\n' || c = '\r')

/-- Parse the body of a JSON string literal after the opening quote, returning
the decoded characters and the remainder after the closing quote. -/
def pStr : Nat → List Char → Option (List Char × List Char)
  | 0, _ => none
  | _, [] => none
  | fuel + 1, c :: cs =>
    if c = '"' then some ([], cs)
    else if c = '\\' then
      match cs with
      | [] => none
      | e :: cs2 =>
        let unescaped : Option (Char × List Char) :=
          if e = '"' then some ('"', cs2)
          else if e = '\\' then some ('\\', cs2)
          else if e = '/' then some ('/', cs2)
          else if e = 'b' then some ('\x08', cs2)
          else if e = 'f' then some ('\x0c', cs2)
          else if e = 'n' then some ('\n', cs2)
          else if e = 'r' then some ('\r', cs2)
          else if e = 't' then some ('\t', cs2)
          else if e = 'u' then
            match cs2 with
            | h1 :: h2 :: h3 :: h4 :: cs3 =>
              match hexDigit h1, hexDigit h2, hexDigit h3, hexDigit h4 with
              | some a, some b, some c3, some d =>
                some (Char.ofNat (((a * 16 + b) * 16 + c3) * 16 + d), cs3)
              | _, _, _, _ => none
            | _ => none
          else none
        match unescaped with
        | none => none
        | some (ch, rest) =>
          match pStr fuel rest with
          | none => none
          | some (body, rest2) => some (ch :: body, rest2)
    else
      match pStr fuel cs with
      | none => none
      | some (body, rest) => some (c :: body, rest)

/-- Parse a run of decimal digits into a value and the count consumed. -/
def pDigits : Nat → List Char → Nat → Nat → Option (Nat × Nat × List Char)
  | 0, _, _, _ => none
  | _ + 1, [], acc, cnt => if cnt = 0 then none else some (acc, cnt, [])
  | fuel + 1, c :: cs, acc, cnt =>
    if '0' ≤ c ∧ c ≤ '9' then
      pDigits fuel cs (acc * 10 + (c.toNat - '0'.toNat)) (cnt + 1)
    else if cnt = 0 then none
    else some (acc, cnt, c :: cs)

/-- Parse a JSON number after an optional leading minus sign. -/
def pNum (fuel : Nat) (neg : Bool) (l : List Char) : Option (Json × List Char) :=
  match pDigits fuel l 0 0 with
  | none => none
  | some (intPart, _, rest) =>
    let mantSign : Int → Int := fun m => if neg then -m else m
    let afterFrac : Option (Int × Int × List Char) :=
      match rest with
      | '.' :: rest2 =>
        match pDigits fuel rest2 0 0 with
        | none => none
        | some (frac, fcnt, rest3) =>
          some (mantSign ((intPart : Int) * (10 : Int) ^ fcnt + (frac : Int)),
                -(fcnt : Int), rest3)
      | _ => some (mantSign (intPart : Int), 0, rest)
    match afterFrac with
    | none => none
    | some (mant, exp0, rest3) =>
      match rest3 with
      | 'e' :: rest4 =>
        match rest4 with
        | '+' :: rest5 =>
          (pDigits fuel rest5 0 0).map fun (e, _, r) => (.num mant (exp0 + e), r)
        | '-' :: rest5 =>
          (pDigits fuel rest5 0 0).map fun (e, _, r) => (.num mant (exp0 - e), r)
        | _ =>
          (pDigits fuel rest4 0 0).map fun (e, _, r) => (.num mant (exp0 + e), r)
      | 'E' :: rest4 =>
        match rest4 with
        | '+' :: rest5 =>
          (pDigits fuel rest5 0 0).map fun (e, _, r) => (.num mant (exp0 + e), r)
        | '-' :: rest5 =>
          (pDigits fuel rest5 0 0).map fun (e, _, r) => (.num mant (exp0 - e), r)
        | _ =>
          (pDigits fuel rest4 0 0).map fun (e, _, r) => (.num mant (exp0 + e), r)
      | _ => some (.num mant exp0, rest3)

mutual

/-- Parse one JSON value from the head of the input (whitespace already skipped). -/
def pVal : Nat → List Char → Option (Json × List Char)
  | 0, _ => none
  | _ + 1, [] => none
  | fuel + 1, c :: cs =>
    if c = 'n' then
      if ['u', 'l', 'l'].isPrefixOf cs then some (.null, cs.drop 3) else none
    else if c = 't' then
      if ['r', 'u', 'e'].isPrefixOf cs then some (.bool true, cs.drop 3) else none
    else if c = 'f' then
      if ['a', 'l', 's', 'e'].isPrefixOf cs then some (.bool false, cs.drop 4) else none
    else if c = '"' then
      match pStr (fuel + 1) cs with
      | none => none
      | some (body, rest) => some (.str (String.mk body), rest)
    else if c = '[' then
      match skipWs cs with
      | ']' :: rest => some (.arr [], rest)
      | l2 => (pArrElems fuel l2).map fun (es, r) => (.arr es, r)
    else if c = '{' then
      match skipWs cs with
      | '}' :: rest => some (.obj [], rest)
      | l2 => (pObjFields fuel l2).map fun (fs, r) => (.obj fs, r)
    else if c = '-' then pNum (fuel + 1) true cs
    else if '0' ≤ c ∧ c ≤ '9' then pNum (fuel + 1) false (c :: cs)
    else none

/-- Parse the elements of a non-empty JSON array body up to the closing bracket. -/
def pArrElems : Nat → List Char → Option (List Json × List Char)
  | 0, _ => none
  | fuel + 1, l =>
    match pVal fuel l with
    | none => none
    | some (j, rest) =>
      match skipWs rest with
      | ',' :: rest2 =>
        (pArrElems fuel (skipWs rest2)).map fun (es, r) => (j :: es, r)
      | ']' :: rest2 => some ([j], rest2)
      | _ => none

/-- Parse the fields of a non-empty JSON object body up to the closing brace. -/
def pObjFields : Nat → List Char → Option (List (String × Json) × List Char)
  | 0, _ => none
  | fuel + 1, l =>
    match l with
    | '"' :: cs =>
      match pStr (fuel + 1) cs with
      | none => none
      | some (key, rest) =>
        match skipWs rest with
        | ':' :: rest2 =>
          match pVal fuel (skipWs rest2) with
          | none => none
          | some (v, rest3) =>
            match skipWs rest3 with
            | ',' :: rest4 =>
              (pObjFields fuel (skipWs rest4)).map
                fun (fs, r) => ((String.mk key, v) :: fs, r)
            | '}' :: rest4 => some ([(String.mk key, v)], rest4)
            | _ => none
        | _ => none
    | _ => none

end

/-- The model of JavaScript `JSON.parse`: parse one complete value, allowing
surrounding whitespace, and fail on trailing text or any syntax error. -/
def Json.parse (s : String) : Option Json :=
  let l := skipWs s.data
  match pVal (2 * l.length + 8) l with
  | none => none
  | some (j, rest) => if skipWs rest = [] then some j else none

/-- The value of `parsed.message?.content` for a non-null parsed payload
(`ollamaService.ts`, streaming branch): `none` models JavaScript `undefined`. -/
def msgContent (j : Json) : Option Json :=
  match jsGetOpt j "message" with
  | none => none
  | some m => if m.isNull then none else jsGetOpt m "content"

/-- The text a parsed unit contributes to `fullResponse` in the
newline-delimited-JSON decoder: `parsed.message.content` when
`parsed.message?.content` is truthy, nothing otherwise. -/
def ndContent (j : Json) : String :=
  match msgContent j with
  | some v => if v.truthy then jsToStr v else ""
  | none => ""

/-- The `fullResponse` accumulated over the chunks passed to `onProgress`. -/
def fullOf (out : List Json) : String :=
  out.foldl (fun acc j => acc ++ ndContent j) ""

/-- The inner scan loop of the streaming branch of
`ollamaService.generateCompletion` (newline-delimited JSON framing):
repeatedly locate the next newline from index `s`, trim the line, skip it if
empty, JSON-parse it and emit it otherwise.  A parse failure leaves the loop
via the `catch` path, which first reassigns the buffer to its suffix from `s`
and then — stale-index slip kept from the source — the post-loop fix-up drops
`s` characters from the reassigned buffer a second time.  Accessing
`.message` on a parsed `null` throws after the unit was already emitted and
reaches the same `catch` path.  The fuel argument bounds the loop and is
always sufficient at the call site. -/
def goNd (parse : String → Option Json) :
    Nat → List Char → Nat → List Json → List Char × List Json
  | 0, B, s, out => (B.drop s, out)
  | fuel + 1, B, s, out =>
    match firstNl (B.drop s) with
    | none => (B.drop s, out)
    | some d =>
      let line := jsTrim ((B.drop s).take d)
      if line.isEmpty then goNd parse fuel B (s + d + 1) out
      else
        match parse (String.mk line) with
        | none => ((B.drop s).drop s, out)
        | some j =>
          if j.isNull then ((B.drop s).drop s, out ++ [j])
          else goNd parse fuel B (s + d + 1) (out ++ [j])

/-- Process the bytes currently buffered after one network chunk arrives
(newline-delimited JSON framing): returns the new buffer and the units
emitted during this pass. -/
def ndProcess (parse : String → Option Json) (B : List Char) :
    List Char × List Json :=
  goNd parse (B.length + 1) B 0 []

/-- One arrival step: append the network chunk to the buffer and scan. -/
def ndFeedSt (parse : String → Option Json) (st : List Char × List Json)
    (chunk : List Char) : List Char × List Json :=
  let r := ndProcess parse (st.1 ++ chunk)
  (r.1, st.2 ++ r.2)

/-- End-of-stream handling of the newline-delimited-JSON decoder: one final
parse attempt on the trimmed remaining buffer; an unparsable remainder is
discarded with a logged warning. -/
def ndFinish (parse : String → Option Json) (buf : List Char) : List Json :=
  let t := jsTrim buf
  if t.isEmpty then []
  else
    match parse (String.mk t) with
    | some j => [j]
    | none => []

/-- The ordered sequence of units emitted for a whole decode session whose
network chunks arrive as `chunks` (newline-delimited JSON framing), including
the end-of-stream attempt on the remaining buffer. -/
def ndDecode (parse : String → Option Json) (chunks : List (List Char)) :
    List Json :=
  let st := chunks.foldl (ndFeedSt parse) ([], [])
  st.2 ++ ndFinish parse st.1

/-- The unit a single complete line contributes: nothing for a blank line,
otherwise the parse of its trimmed text. -/
def ndLineOut (parse : String → Option Json) (line : List Char) : Option Json :=
  let t := jsTrim line
  if t.isEmpty then none else parse (String.mk t)

/-- The units contributed by the complete lines of a character stream. -/
def ndEmits (parse : String → Option Json) (l : List Char) : List Json :=
  (lineSplit l).1.filterMap (ndLineOut parse)

/-- A complete line is well-formed when it is blank after trimming or parses
to a non-null JSON value (so the decoder neither hits its parse-failure path
nor throws on field access). -/
def ndLineOk (parse : String → Option Json) (line : List Char) : Bool :=
  let t := jsTrim line
  t.isEmpty ||
    (match parse (String.mk t) with
     | some j => !j.isNull
     | none => false)

/-- Well-formedness of a whole stream: every complete line is well-formed. -/
def ndWF (parse : String → Option Json) (l : List Char) : Bool :=
  (lineSplit l).1.all (ndLineOk parse)

end Vibed

namespace Vibed

/-- One progress event of the SSE decoder: the adapted
`{message: {role: assistant, content}, done}` value passed to `onProgress`. -/
structure SseChunk where
  content : Json
  done : Bool

/-- Extraction applied to one SSE payload (already trimmed, not `[DONE]`):
the content emitted, or `none` when the unit is skipped — empty payload,
parse failure, a falsy or missing `choices`/`choices[0]`, a missing `delta`
(whose `.content` access throws and is caught), or falsy content. -/
def sseExtract (parse : String → Option Json) (msg : List Char) : Option Json :=
  if msg.isEmpty then none
  else
    match parse (String.mk msg) with
    | none => none
    | some j =>
      if j.isNull then none
      else
        match jsGetOpt j "choices" with
        | none => none
        | some ch =>
          if !ch.truthy then none
          else
            match jsIndexOpt ch 0 with
            | none => none
            | some c0 =>
              if !c0.truthy then none
              else
                match jsGetOpt c0 "delta" with
                | none => none
                | some d =>
                  if d.isNull then none
                  else
                    match jsGetOpt d "content" with
                    | some v => if v.truthy then some v else none
                    | none => none

/-- The inner scan loop of the SSE streaming branch (`generateCompletion`,
OpenAI-compatible iteration): find the next `data: ` marker from index `s`,
move past it, find the line end (breaking out — with the prefix already
consumed — when the line is still incomplete), trim the payload, skip the
`[DONE]` sentinel with `continue`, and otherwise parse and extract content.
The post-loop buffer fix-up is the uniform suffix from the current index. -/
def sseGo (parse : String → Option Json) :
    Nat → List Char → Nat → List SseChunk → List Char × List SseChunk
  | 0, B, s, out => (B.drop s, out)
  | fuel + 1, B, s, out =>
    match findSub (str2l "data: ") (B.drop s) with
    | none => (B.drop s, out)
    | some k =>
      let s1 := s + k + 6
      match firstNl (B.drop s1) with
      | none => (B.drop s1, out)
      | some d =>
        let msg := jsTrim ((B.drop s1).take d)
        let s2 := s1 + d + 1
        if msg = str2l "[DONE]" then sseGo parse fuel B s2 out
        else
          match sseExtract parse msg with
          | some content => sseGo parse fuel B s2 (out ++ [⟨content, false⟩])
          | none => sseGo parse fuel B s2 out

/-- Process the buffered bytes after one network chunk arrives (SSE framing). -/
def sseProcess (parse : String → Option Json) (B : List Char) :
    List Char × List SseChunk :=
  sseGo parse (B.length + 1) B 0 []

/-- One arrival step of the SSE decoder. -/
def sseFeedSt (parse : String → Option Json) (st : List Char × List SseChunk)
    (chunk : List Char) : List Char × List SseChunk :=
  let r := sseProcess parse (st.1 ++ chunk)
  (r.1, st.2 ++ r.2)

/-- The ordered sequence of progress events for a whole SSE decode session:
the events emitted while scanning, then the synthetic completion event
`{content: empty, done: true}` that the source emits when the upstream
signals end-of-stream (the remaining buffer is dropped without a final
parse attempt). -/
def sseDecode (parse : String → Option Json) (chunks : List (List Char)) :
    List SseChunk :=
  let st := chunks.foldl (sseFeedSt parse) ([], [])
  st.2 ++ [⟨Json.str "", true⟩]

end Vibed

namespace Vibed

/-- The outcome of routing one inbound request.  The source's proxy always
forwards; the `unsupportedEndpoint` variant exists to state the spec's claim
that an unmapped logical endpoint fails without a network call. -/
inductive RouterResult where
  | forward (target : List Char) : RouterResult
  | unsupportedEndpoint : RouterResult
deriving DecidableEq, Repr

/-- The `pathRewrite` of the native-API proxy in the primary `server.js`:
three special-cased endpoints pass through unchanged; any other path has a
leading `/api` stripped (anchored regex) and, when the configured base path
is not the root, the base path prepended. -/
def pathRewriteV1 (apiBasePath path : List Char) : List Char :=
  if path = str2l "/api/tags" then str2l "/api/tags"
  else if path = str2l "/api/generate" then str2l "/api/generate"
  else if path = str2l "/api/chat" then str2l "/api/chat"
  else
    let stripped := if (str2l "/api").isPrefixOf path then path.drop 4 else path
    if apiBasePath ≠ str2l "/" then apiBasePath ++ stripped else stripped

/-- Routing of an inbound `/api/*` request by the primary `server.js`: the
proxy middleware always forwards to the rewritten path; no failure variant is
ever produced. -/
def routeApi (apiBasePath path : List Char) : RouterResult :=
  .forward (pathRewriteV1 apiBasePath path)

/-- The `pathRewrite` of the fallback-strategy `server.js` iteration: collapse
a doubled `/api/api/` prefix once, else strip the first `/api` when the base
path already contains `/api`, else prepend `/ollama` when absent, else keep
the path. -/
def pathRewriteV3 (apiBasePath path : List Char) : List Char :=
  if (str2l "/api/api/").isPrefixOf path then
    replaceFirst (str2l "/api/api/") (str2l "/api/") path
  else if containsSub (str2l "/api") apiBasePath then
    replaceFirst (str2l "/api") [] path
  else if !containsSub (str2l "/ollama") path then str2l "/ollama" ++ path
  else path

/-- Set a header, overwriting an existing binding of the same (lower-cased)
name, appending otherwise; models `proxyReq.setHeader`. -/
def setHeader (hs : List (String × String)) (k v : String) :
    List (String × String) :=
  if hs.any (fun p => p.1 = k) then
    hs.map (fun p => if p.1 = k then (k, v) else p)
  else hs ++ [(k, v)]

/-- Remove a header; models `proxyReq.removeHeader`. -/
def removeHeader (hs : List (String × String)) (k : String) :
    List (String × String) :=
  hs.filter (fun p => p.1 ≠ k)

/-- Look a header up by (lower-cased) name. -/
def lookupHeader (hs : List (String × String)) (k : String) : Option String :=
  (hs.find? (fun p => p.1 = k)).map (fun p => p.2)

/-- The `onProxyReq` handler of the primary `server.js`: copy every inbound
header except `host` onto the outbound request, clear any `content-length`,
and when a parsed body exists re-serialize it, force
`content-type: application/json` and set `content-length` to the byte length
of the re-serialized body.  Header names are modelled lower-cased, as Node
presents them. -/
def onProxyReqHeaders (inbound : List (String × String)) (body : Option String) :
    List (String × String) :=
  let copied := inbound.foldl
    (fun acc kv => if kv.1 = "host" then acc else setHeader acc kv.1 kv.2) []
  let cleared := removeHeader copied "content-length"
  match body with
  | some bodyData =>
    setHeader (setHeader cleared "content-type" "application/json")
      "content-length" (toString bodyData.utf8ByteSize)
  | none => cleared

/-- Whether the last character of a list is `c`. -/
def lastCharIs (l : List Char) (c : Char) : Bool := l.getLast? = some c

/-- The trailing-slash normalization applied to the configured backend URL in
every `server.js` iteration: strip exactly one trailing slash if present. -/
def normalizeApiUrl (u : List Char) : List Char :=
  if lastCharIs u '/' then u.dropLast else u

/-- The characters after the first `://`, or the whole input when absent
(`new URL` would throw in that case; the claims only use well-formed URLs). -/
def afterSchemeSep (u : List Char) : List Char :=
  match findSub (str2l "://") u with
  | some i => u.drop (i + 3)
  | none => u

/-- The `pathname` of a parsed URL: after scheme and host, from the first
slash up to any query or fragment, and `/` when no path is present. -/
def pathnameOf (u : List Char) : List Char :=
  let rest := (afterSchemeSep u).takeWhile (fun c => c ≠ '?' ∧ c ≠ '#')
  let p := rest.dropWhile (fun c => c ≠ '/')
  if p.isEmpty then str2l "/" else p

/-- The `apiBasePath` a `server.js` iteration computes from a configured
backend URL string: normalize the trailing slash, then take the pathname. -/
def basePathOf (u : List Char) : List Char := pathnameOf (normalizeApiUrl u)

end Vibed

namespace Vibed

/-- One chat message as the alternate service iteration handles it. -/
structure ChatMsg where
  role : String
  content : String
deriving DecidableEq, Repr

/-- The fixed mock model list fabricated by `getMockModels` when the API is
unavailable; `now` stands for `new Date().toISOString()`. -/
def mockModelsJson (now : String) : List Json :=
  [Json.obj [("name", .str "llama2"), ("modified_at", .str now),
             ("size", .num 3800000000 0)],
   Json.obj [("name", .str "mistral"), ("modified_at", .str now),
             ("size", .num 4200000000 0)],
   Json.obj [("name", .str "gemma"), ("modified_at", .str now),
             ("size", .num 3500000000 0)],
   Json.obj [("name", .str "codellama"), ("modified_at", .str now),
             ("size", .num 3900000000 0)]]

/-- Whether a JSON value is an array; models `Array.isArray`. -/
def Json.isArray : Json → Bool
  | .arr _ => true
  | _ => false

/-- Whether a payload is a string containing an HTML marker. -/
def isHtmlString (j : Json) : Bool :=
  match j with
  | .str s => containsSub (str2l "<html>") s.data
  | _ => false

/-- The per-element conversion applied when `/api/tags` returns a bare array:
string elements become a model record named after them, anything else is named
`unknown`. -/
def bareArrayToModel (now : String) (e : Json) : Json :=
  match e with
  | .str s => Json.obj [("name", .str s), ("modified_at", .str now),
                        ("size", .num 0 0)]
  | _ => Json.obj [("name", .str "unknown"), ("modified_at", .str now),
                   ("size", .num 0 0)]

/-- `getModels`' handling of a successful `/api/tags` response body: the
`models` array when present, the HTML-fallback and bare-array special cases,
and the mock list otherwise. -/
def getModelsFromPrimary (now : String) (data : Json) : List Json :=
  if data.truthy then
    match jsGetOpt data "models" with
    | some ms =>
      if ms.truthy && ms.isArray then
        match ms with
        | .arr elems => elems
        | _ => mockModelsJson now
      else if isHtmlString data then mockModelsJson now
      else
        match data with
        | .arr elems => elems.map (bareArrayToModel now)
        | _ => mockModelsJson now
    | none =>
      if isHtmlString data then mockModelsJson now
      else
        match data with
        | .arr elems => elems.map (bareArrayToModel now)
        | _ => mockModelsJson now
  else if isHtmlString data then mockModelsJson now
  else
    match data with
    | .arr elems => elems.map (bareArrayToModel now)
    | _ => mockModelsJson now

/-- Conversion of one OpenAI-format model record; `fmtDate` is the oracle for
`new Date(v * 1000).toISOString()` and `none` models a thrown exception (a
null record, or a date error such as a missing `created`). -/
def openAiToModel (fmtDate : Option Json → Option String) (m : Json) :
    Option Json :=
  if m.isNull then none
  else
    match fmtDate (jsGetOpt m "created") with
    | none => none
    | some dstr =>
      let base :=
        match jsGetOpt m "id" with
        | some idv => [("name", idv)]
        | none => ([] : List (String × Json))
      some (Json.obj (base ++ [("modified_at", Json.str dstr),
                               ("size", Json.num 0 0)]))

/-- `getModels`' handling of a successful `/v1/models` fallback response: map
an OpenAI `data` array, with any thrown conversion reaching the surrounding
catch and yielding the mock list. -/
def getModelsFromAlt (now : String) (fmtDate : Option Json → Option String)
    (data : Json) : List Json :=
  if data.truthy then
    match jsGetOpt data "data" with
    | some d =>
      if d.truthy && d.isArray then
        match d with
        | .arr elems =>
          match elems.mapM (openAiToModel fmtDate) with
          | some ms => ms
          | none => mockModelsJson now
        | _ => mockModelsJson now
      else mockModelsJson now
    | none => mockModelsJson now
  else mockModelsJson now

/-- The whole `getModels` of the alternate iteration: try `/api/tags`, on any
failure try `/v1/models`, and on failure of both return the mock list.  The
attempt arguments carry the modelled network outcomes; every path resolves
successfully. -/
def getModelsModel (now : String) (fmtDate : Option Json → Option String)
    (primary alt : Except Unit Json) : Except Unit (List Json) :=
  match primary with
  | .ok data => .ok (getModelsFromPrimary now data)
  | .error _ =>
    match alt with
    | .ok data2 => .ok (getModelsFromAlt now fmtDate data2)
    | .error _ => .ok (mockModelsJson now)

/-- The canned reply `generateMockCompletion` fabricates from the last user
message when every endpoint attempt failed. -/
def generateMockCompletion (messages : List ChatMsg) : String :=
  match messages.reverse.find? (fun m => m.role = "user") with
  | none => "I didn't receive a question. How can I help you?"
  | some lastUser =>
    let q := lastUser.content.toLower
    if containsSub (str2l "hello") q.data || containsSub (str2l "hi ") q.data then
      "Hello! I'm a mock AI assistant. The API connection isn't working right now, but I can provide some basic responses."
    else if containsSub (str2l "help") q.data ||
        containsSub (str2l "documentation") q.data then
      "This is a mock response since the API connection isn't working. Normally, I would provide help or documentation based on your request."
    else if containsSub (str2l "model") q.data ||
        containsSub (str2l "llama") q.data then
      "This is a mock response. Currently, we support models like Llama, Mistral, Gemma, and CodeLlama. However, the actual API connection isn't working right now."
    else
      "This is a mock response since the API connection isn't working right now. You asked: \"" ++
        lastUser.content ++
        "\". In a real scenario, I would provide a helpful answer to your question."

/-- Recognition of one non-streaming completion attempt's response body:
native `message.content`, OpenAI `choices[0]?.message?.content`, or a bare
string; `.error` models the `TypeError` thrown by `data.message` on a null
body (caught by the per-endpoint catch). -/
def tryRecognize (data : Json) : Except Unit (Option String) :=
  if data.isNull then .error ()
  else
    let mc : Option Json :=
      match jsGetOpt data "message" with
      | some mv => if mv.isNull then none else jsGetOpt mv "content"
      | none => none
    match mc with
    | some v =>
      if v.truthy then .ok (some (jsToStr v))
      else .ok (recognizeRest data)
    | none => .ok (recognizeRest data)
where
  /-- The OpenAI- and bare-string alternatives of the recognition chain. -/
  recognizeRest (data : Json) : Option String :=
    let viaChoices : Option Json :=
      match jsGetOpt data "choices" with
      | some ch =>
        if ch.truthy then
          match jsIndexOpt ch 0 with
          | some c0 =>
            if c0.isNull then none
            else
              match jsGetOpt c0 "message" with
              | some mm => if mm.isNull then none else jsGetOpt mm "content"
              | none => none
          | none => none
        else none
      | none => none
    match viaChoices with
    | some v =>
      if v.truthy then some (jsToStr v)
      else
        match data with
        | .str s => some s
        | _ => none
    | none =>
      match data with
      | .str s => some s
      | _ => none

/-- What one endpoint attempt of the non-streaming loop yields: a completion
string, or nothing (failed request, thrown recognition, or unrecognized
format), in which case the loop moves to the next endpoint. -/
def genNonStreamStep (att : Except Unit Json) : Option String :=
  match att with
  | .error _ => none
  | .ok data =>
    match tryRecognize data with
    | .error _ => none
    | .ok r => r

/-- The non-streaming `generateCompletion` of the alternate iteration: try
each endpoint in order and, when every attempt fails or is unrecognized,
return the fabricated mock completion. -/
def genNonStream (attempts : List (Except Unit Json)) (messages : List ChatMsg) :
    String :=
  match attempts with
  | [] => generateMockCompletion messages
  | a :: rest =>
    match genNonStreamStep a with
    | some s => s
    | none => genNonStream rest messages

/-- A JavaScript error kind for the modelled property accesses. -/
inductive JsErr where
  | typeError : JsErr
deriving DecidableEq, Repr

/-- The primary `ollamaService.getModels`: resolve with `response.data.models`
unvalidated — a `TypeError` (rejected promise) on a null body, and the raw
field value (or `undefined`, modelled `none`) otherwise. -/
def getModelsV1 (data : Json) : Except JsErr (Option Json) :=
  match data with
  | .null => .error .typeError
  | .obj fields => .ok (lookupField fields "models")
  | _ => .ok none

/-- Whether a JSON value is an object with a `models` field. -/
def hasModelsField (data : Json) : Bool :=
  match data with
  | .obj fields => (lookupField fields "models").isSome
  | _ => false

/-- The SSE example stream of the spec: one content payload, then the
`[DONE]` sentinel. -/
def c2Input : String :=
  "data: \x7b\"choices\":[\x7b\"delta\":\x7b\"content\":\"hi\"\x7d\x7d]\x7d\ndata: [DONE]\n"

/-- An SSE stream with a content payload after the `[DONE]` sentinel. -/
def c2AfterDone : String :=
  "data: [DONE]\ndata: \x7b\"choices\":[\x7b\"delta\":\x7b\"content\":\"x\"\x7d\x7d]\x7d\n"

/-- A single network chunk holding one well-formed unit followed by a
newline-terminated unit that does not parse. -/
def c3Chunk : String :=
  "\x7b\"message\":\x7b\"content\":\"a\"\x7d,\"done\":false\x7d\n\x7b\"bad\n"

/-- The SSE example stream cut between the `data: ` marker and its newline. -/
def c1SseA : String := "data: \x7b\"choices\":[\x7b\"delta\":\x7b\"content\":\"hi\"\x7d\x7d]\x7d"

/-- The remainder of the SSE example stream after the cut. -/
def c1SseB : String := "\ndata: [DONE]\n"

/-- Three newline-delimited pieces whose concatenation decodes differently
from their piecewise arrival: a good line, an unparsable line, and bytes that
the stale-index fix-up happens to skip into a parsable tail. -/
def c1NdA : String := "\x7b\"a\":1\x7d\n"

/-- The unparsable middle line of the newline-delimited counterexample. -/
def c1NdB : String := "bad\n"

/-- The final piece of the newline-delimited counterexample. -/
def c1NdC : String := "xxx1\x7b\"c\":2\x7d\n"

/-- A well-formed stream delivered in two pieces, cut inside the JSON object. -/
def c1wA : String := "\x7b\"a\":1"

/-- The completing piece of the two-piece well-formed stream. -/
def c1wB : String := "\x7d\n"

/-- Join payload lines with the newline terminator each unit carries on the
wire in the newline-delimited framing. -/
def joinLines : List (List Char) → List Char
  | [] => []
  | l :: rest => l ++ '\n' :: joinLines rest

/-- Modelled from the spec: the separately-computed non-streaming decode of
the same logical payload (spec section 8) — the single JSON document the
backend would return for the same generation without streaming, whose
`message.content` carries the final aggregate text. -/
def aggregateOf (full : String) : Json :=
  Json.obj [("message", Json.obj [("role", Json.str "assistant"),
                                  ("content", Json.str full)]),
            ("done", Json.bool true)]

/-- The non-streaming decode path of `generateCompletion`:
`response.data.message.content`, with `none` modelling a thrown access on a
body without the expected shape. -/
def nonStreamDecode (data : Json) : Option String :=
  if data.isNull then none
  else
    match jsGetOpt data "message" with
    | none => none
    | some m =>
      if m.isNull then none
      else (jsGetOpt m "content").map jsToStr

/-- First payload line of the newline-delimited agreement witness. -/
def c4Line1 : String := "\x7b\"message\":\x7b\"content\":\"He\"\x7d,\"done\":false\x7d"

/-- Second payload line of the newline-delimited agreement witness. -/
def c4Line2 : String := "\x7b\"message\":\x7b\"content\":\"llo\"\x7d,\"done\":false\x7d"

/-- The parsed form of the first witness line. -/
def c4Json1 : Json :=
  Json.obj [("message", Json.obj [("content", Json.str "He")]),
            ("done", Json.bool false)]

/-- The parsed form of the second witness line. -/
def c4Json2 : Json :=
  Json.obj [("message", Json.obj [("content", Json.str "llo")]),
            ("done", Json.bool false)]

/-- The value a header carries after the copy loop: the last non-`host`
inbound binding of the name, since each `setHeader` overwrites the previous
binding. -/
def lastNonHost (inbound : List (String × String)) (k : String) : Option String :=
  (((inbound.filter (fun p => p.1 ≠ "host")).reverse).find?
    (fun p => p.1 = k)).map (fun p => p.2)

end Vibed

namespace Vibed

/-- C5: with `basePath = "/api"` the inbound `/api/api/tags` is rewritten to
exactly `/api/tags` — not left doubled and not over-stripped to `/tags` — and
the duplicated prefix is stripped exactly once, never recursively (a tripled
prefix loses exactly one copy). -/
theorem c5_double_prefix_collapse :
    pathRewriteV3 (str2l "/api") (str2l "/api/api/tags") = str2l "/api/tags" ∧
    pathRewriteV3 (str2l "/api") (str2l "/api/api/tags") ≠ str2l "/tags" ∧
    pathRewriteV3 (str2l "/api") (str2l "/api/api/tags") ≠ str2l "/api/api/tags" ∧
    pathRewriteV3 (str2l "/api") (str2l "/api/api/api/tags") = str2l "/api/api/tags" :=
  ⟨rfl, by decide, by decide, rfl⟩

/-- C3: contrary to the decoder's stated intent to leave an unparsable unit in
the buffer for the next network chunk, a newline-terminated unit that fails to
parse after a successfully parsed unit in the same pass is dropped: the pass
over `c3Chunk` emits the one good unit and leaves an empty buffer, so the
failing unit's bytes are not retained for the next arriving chunk. -/
theorem c3_midstream_discard_code_bug :
    (ndProcess Json.parse (str2l c3Chunk)).1 = [] ∧
    (ndProcess Json.parse (str2l c3Chunk)).2.length = 1 :=
  ⟨rfl, rfl⟩

/-- C2 counterexample: the spec example stream does not decode to the single
chunk the claim states — the decoder also emits a synthetic completion event
at end-of-stream, because `[DONE]` is skipped rather than ending the session. -/
theorem c2_done_sentinel_counterexample :
    sseDecode Json.parse [str2l c2Input] ≠ [⟨Json.str "hi", false⟩] := by
  intro h
  have hl := congrArg List.length h
  have e1 : (sseDecode Json.parse [str2l c2Input]).length = 2 := rfl
  rw [e1] at hl
  exact absurd hl (by decide)

/-- C2 amended: the `[DONE]` payload is skipped without emitting a chunk and
without ending the scan (a payload after it is still emitted), and the
`isFinal` event is synthesized at upstream end-of-stream with empty content:
the spec example yields the content chunk and then the synthetic completion
event, and a stream with content after `[DONE]` still yields that content. -/
theorem c2_done_sentinel_amended :
    sseDecode Json.parse [str2l c2Input] =
      [⟨Json.str "hi", false⟩, ⟨Json.str "", true⟩] ∧
    sseDecode Json.parse [str2l c2AfterDone] =
      [⟨Json.str "x", false⟩, ⟨Json.str "", true⟩] :=
  ⟨rfl, rfl⟩

/-- C7 counterexample: an inbound path outside the mapped endpoints is still
forwarded (here to `/api/unknown` under base path `/api`), not failed with
`UnsupportedEndpoint`. -/
theorem c7_unsupported_endpoint_counterexample :
    routeApi (str2l "/api") (str2l "/api/unknown") =
      .forward (str2l "/api/unknown") ∧
    routeApi (str2l "/api") (str2l "/api/unknown") ≠
      RouterResult.unsupportedEndpoint :=
  ⟨rfl, by decide⟩

/-- C7 amended: the proxy defines no unsupported-endpoint failure at all —
every inbound path is forwarded, a request with an unmapped endpoint included,
after stripping the leading `/api` and prepending the configured base path
(or only stripping when the base path is the root). -/
theorem c7_always_forwards_amended :
    (∀ bp p, routeApi bp p ≠ RouterResult.unsupportedEndpoint) ∧
    routeApi (str2l "/api") (str2l "/api/whatever") =
      .forward (str2l "/api/whatever") ∧
    routeApi (str2l "/") (str2l "/api/whatever") = .forward (str2l "/whatever") :=
  ⟨fun _ _ h => RouterResult.noConfusion h, rfl, rfl⟩

/-- C6 counterexample: with both the `/api/tags` attempt and the `/v1/models`
fallback failing, `getModels` resolves with the fabricated four-entry mock
model list instead of surfacing the error, and with every endpoint attempt
failing the non-streaming generation returns the fabricated mock completion. -/
theorem c6_mock_fallback_counterexample :
    getModelsModel "T" (fun _ => none) (.error ()) (.error ()) =
      .ok (mockModelsJson "T") ∧
    (mockModelsJson "T").length = 4 ∧
    genNonStream [.error (), .error (), .error (), .error ()]
        [⟨"user", "what is love?"⟩] =
      generateMockCompletion [⟨"user", "what is love?"⟩] :=
  ⟨rfl, rfl, rfl⟩

/-- C6 amended: fabricating substitute content is the implemented fallback
policy — whenever both model-listing attempts fail the call resolves with the
mock model list, and whenever every generation attempt fails the call returns
the mock completion for the conversation; no error is surfaced on these paths. -/
theorem c6_mock_fallback_amended :
    ∀ (now : String) (fmtDate : Option Json → Option String)
      (msgs : List ChatMsg) (n : Nat),
      getModelsModel now fmtDate (.error ()) (.error ()) =
        .ok (mockModelsJson now) ∧
      genNonStream (List.replicate n (.error ())) msgs =
        generateMockCompletion msgs := by
  intro now fmtDate msgs n
  refine ⟨rfl, ?_⟩
  induction n with
  | zero => rfl
  | succ k ih => simpa [List.replicate_succ, genNonStream, genNonStreamStep] using ih

/-- C9 counterexample: a configured backend URL ending in two separators
defeats the single-slash normalization — the constructed base path is
`/api/`, which ends with a trailing separator. -/
theorem c9_trailing_separator_counterexample :
    basePathOf (str2l "https://x/api//") = str2l "/api/" ∧
    lastCharIs (basePathOf (str2l "https://x/api//")) '/' = true :=
  ⟨rfl, rfl⟩

/-- C10 counterexample: a 2xx response whose JSON body is `null` lacks a
`models` array, yet `getModels` does not resolve with an absent value — the
`response.data.models` access throws and the call rejects. -/
theorem c10_null_body_counterexample :
    hasModelsField Json.null = false ∧
    getModelsV1 Json.null = .error .typeError :=
  ⟨rfl, rfl⟩

/-- C10 amended: for every non-null 2xx body, `getModels` resolves
successfully with the raw `models` field value, the absent value included —
in particular a body without a `models` field resolves with the modelled
`undefined` — with no validation at the public interface. -/
theorem c10_unvalidated_models_amended (data : Json) (h : data ≠ Json.null) :
    (∃ v, getModelsV1 data = .ok v) ∧
    (hasModelsField data = false → getModelsV1 data = .ok none) := by
  cases data with
  | null => exact absurd rfl h
  | obj fields =>
    refine ⟨⟨lookupField fields "models", rfl⟩, fun hm => ?_⟩
    have : (lookupField fields "models").isSome = false := hm
    cases hlk : lookupField fields "models" with
    | none => simp [getModelsV1, hlk]
    | some v => rw [hlk] at this; exact absurd this (by simp)
  | bool b => exact ⟨⟨none, rfl⟩, fun _ => rfl⟩
  | num m e => exact ⟨⟨none, rfl⟩, fun _ => rfl⟩
  | str s => exact ⟨⟨none, rfl⟩, fun _ => rfl⟩
  | arr elems => exact ⟨⟨none, rfl⟩, fun _ => rfl⟩

/-- A stream with no newline has no complete line. -/
theorem firstNl_none (l : List Char) (h : firstNl l = none) : '\n' ∉ l := by
  induction l with
  | nil => exact List.not_mem_nil _
  | cons c cs ih =>
    by_cases hc : c = '\n'
    · simp [firstNl, hc] at h
    · simp only [firstNl, if_neg hc, Option.map_eq_none'] at h
      intro hm
      rcases List.mem_cons.mp hm with h1 | h2
      · exact hc h1.symm
      · exact ih h h2

/-- A found newline index decomposes the stream into a newline-free prefix of
that length, the newline, and the rest. -/
theorem firstNl_some (l : List Char) (d : Nat) (h : firstNl l = some d) :
    ∃ t r, l = t ++ '\n' :: r ∧ t.length = d ∧ '\n' ∉ t := by
  induction l generalizing d with
  | nil => simp [firstNl] at h
  | cons c cs ih =>
    by_cases hc : c = '\n'
    · subst hc
      simp [firstNl] at h
      exact ⟨[], cs, by simp, by simp [← h], List.not_mem_nil _⟩
    · simp only [firstNl, if_neg hc] at h
      cases hcs : firstNl cs with
      | none => rw [hcs] at h; simp at h
      | some d2 =>
        rw [hcs] at h
        simp at h
        obtain ⟨t, r, hsplit, hlen, hnl⟩ := ih d2 hcs
        refine ⟨c :: t, r, by simp [hsplit], by simp only [List.length_cons, hlen]; omega, ?_⟩
        intro hm
        rcases List.mem_cons.mp hm with h1 | h2
        · exact hc h1.symm
        · exact hnl h2

/-- A newline-free stream is one trailing partial segment. -/
theorem lineSplit_no_nl (l : List Char) (h : '\n' ∉ l) : lineSplit l = ([], l) := by
  induction l with
  | nil => rfl
  | cons c cs ih =>
    have hc : c ≠ '\n' := fun he => h (he ▸ List.mem_cons_self c cs)
    have hcs : '\n' ∉ cs := fun hm => h (List.mem_cons_of_mem c hm)
    simp [lineSplit, ih hcs, hc]

/-- Splitting at the first newline: a newline-free prefix becomes the first
complete line. -/
theorem lineSplit_break (t r : List Char) (h : '\n' ∉ t) :
    lineSplit (t ++ '\n' :: r) = (t :: (lineSplit r).1, (lineSplit r).2) := by
  induction t with
  | nil => simp [lineSplit]
  | cons c t2 ih =>
    have hc : c ≠ '\n' := fun he => h (he ▸ List.mem_cons_self c t2)
    have ht2 : '\n' ∉ t2 := fun hm => h (List.mem_cons_of_mem c hm)
    show lineSplit (c :: (t2 ++ '\n' :: r)) = _
    rw [lineSplit, ih ht2]
    simp [hc]

/-- Line splitting composes over concatenation: the later piece is scanned
with the earlier piece's trailing partial segment prepended. -/
theorem lineSplit_append (a b : List Char) :
    lineSplit (a ++ b) =
      ((lineSplit a).1 ++ (lineSplit ((lineSplit a).2 ++ b)).1,
       (lineSplit ((lineSplit a).2 ++ b)).2) := by
  cases hfn : firstNl a with
  | none =>
    rw [lineSplit_no_nl a (firstNl_none a hfn)]
    simp
  | some d =>
    obtain ⟨t, r, hat, hlen, hnlt⟩ := firstNl_some a d hfn
    subst hat
    have harg : (t ++ '\n' :: r) ++ b = t ++ '\n' :: (r ++ b) := by simp
    rw [harg, lineSplit_break t (r ++ b) hnlt, lineSplit_break t r hnlt,
        lineSplit_append r b]
    simp
termination_by a.length
decreasing_by
  subst hat
  simp
  omega

/-- A terminated run of the newline-delimited scan loop on a well-formed
buffer: it consumes every complete line, emits exactly the units those lines
contribute, and leaves the trailing partial segment buffered. -/
theorem goNd_wf (parse : String → Option Json) :
    ∀ (fuel : Nat) (B : List Char) (s : Nat) (out : List Json),
      B.length - s < fuel → ndWF parse (B.drop s) = true →
      goNd parse fuel B s out =
        ((lineSplit (B.drop s)).2, out ++ ndEmits parse (B.drop s)) := by
  intro fuel
  induction fuel with
  | zero => intro B s out h; exact absurd h (Nat.not_lt_zero _)
  | succ f ih =>
    intro B s out hlt hwf
    cases hfn : firstNl (B.drop s) with
    | none =>
      have hnl := firstNl_none _ hfn
      simp [goNd, hfn, lineSplit_no_nl _ hnl, ndEmits]
    | some d =>
      obtain ⟨t, r, hdrop, hlen, hnlt⟩ := firstNl_some _ _ hfn
      have htake : (B.drop s).take d = t := by
        rw [hdrop, ← hlen]
        have h2 : t ++ '\n' :: r = t ++ ('\n' :: r) := rfl
        rw [h2]
        exact List.take_left t _
      have hdropd : B.drop (s + d + 1) = r := by
        have h1 : (B.drop s).drop (d + 1) = r := by
          rw [hdrop, ← hlen]
          have h2 : t ++ '\n' :: r = (t ++ ['\n']) ++ r := by simp
          have h3 : t.length + 1 = (t ++ ['\n']).length := by simp
          rw [h2, h3]
          exact List.drop_left _ _
        calc B.drop (s + d + 1) = (B.drop s).drop (d + 1) := by
              rw [List.drop_drop, Nat.add_assoc]
          _ = r := h1
      have hsplit : lineSplit (B.drop s) = (t :: (lineSplit r).1, (lineSplit r).2) := by
        rw [hdrop]
        exact lineSplit_break t r hnlt
      have hwf2 : ndLineOk parse t = true ∧ ndWF parse r = true := by
        rw [ndWF, hsplit] at hwf
        simpa [ndWF] using hwf
      have hr_lt : r.length < f := by
        have hBlen : (B.drop s).length = B.length - s := List.length_drop s B
        rw [hdrop] at hBlen
        simp at hBlen
        omega
      have hlt2 : B.length - (s + d + 1) < f := by
        have := congrArg List.length hdropd
        rw [List.length_drop] at this
        omega
      by_cases htr : (jsTrim t).isEmpty
      · have hstep : goNd parse (f + 1) B s out = goNd parse f B (s + d + 1) out := by
          simp [goNd, hfn, htake, htr]
        rw [hstep, ih B (s + d + 1) out hlt2 (by rw [hdropd]; exact hwf2.2), hdropd,
            hsplit]
        simp [ndEmits, hsplit, ndLineOut, htr]
      · have hok := hwf2.1
        rw [ndLineOk] at hok
        simp only [htr, Bool.false_or] at hok
        cases hp : parse (String.mk (jsTrim t)) with
        | none => rw [hp] at hok; simp at hok
        | some j =>
          rw [hp] at hok
          simp at hok
          have hstep : goNd parse (f + 1) B s out =
              goNd parse f B (s + d + 1) (out ++ [j]) := by
            simp [goNd, hfn, htake, htr, hp, hok]
          rw [hstep, ih B (s + d + 1) (out ++ [j]) hlt2
              (by rw [hdropd]; exact hwf2.2), hdropd, hsplit]
          simp [ndEmits, hsplit, ndLineOut, htr, hp]

/-- A buffer pass on a well-formed buffer, stated at the entry point. -/
theorem ndProcess_wf (parse : String → Option Json) (B : List Char)
    (h : ndWF parse B = true) :
    ndProcess parse B = ((lineSplit B).2, ndEmits parse B) := by
  have := goNd_wf parse (B.length + 1) B 0 [] (by omega) (by simpa using h)
  simpa [ndProcess] using this

/-- Well-formedness restricts to the left piece of a concatenation. -/
theorem ndWF_append_left (parse : String → Option Json) (a b : List Char)
    (h : ndWF parse (a ++ b) = true) : ndWF parse a = true := by
  rw [ndWF, lineSplit_append a b, List.all_append, Bool.and_eq_true] at h
  exact h.1

/-- Well-formedness passes to the trailing-segment-plus-next-piece scan. -/
theorem ndWF_tail_append (parse : String → Option Json) (a b : List Char)
    (h : ndWF parse (a ++ b) = true) :
    ndWF parse ((lineSplit a).2 ++ b) = true := by
  rw [ndWF, lineSplit_append a b, List.all_append, Bool.and_eq_true] at h
  exact h.2

/-- Emitted units compose over concatenation the same way the scan does. -/
theorem ndEmits_append (parse : String → Option Json) (a b : List Char) :
    ndEmits parse (a ++ b) =
      ndEmits parse a ++ ndEmits parse ((lineSplit a).2 ++ b) := by
  rw [ndEmits, lineSplit_append a b, List.filterMap_append]
  rfl

/-- The trailing segment of a concatenation is that of the trailing-segment
scan of the later piece. -/
theorem lineSplit_snd_append (a b : List Char) :
    (lineSplit (a ++ b)).2 = (lineSplit ((lineSplit a).2 ++ b)).2 := by
  rw [lineSplit_append a b]

/-- Folding the arrival steps over any chunk list whose concatenation is
well-formed reaches the same state as one pass over the concatenation:
trailing partial segment buffered, all complete-line units emitted in order. -/
theorem ndFold_wf (parse : String → Option Json) :
    ∀ (cs : List (List Char)) (P : List Char),
      ndWF parse (P ++ cs.join) = true →
      cs.foldl (ndFeedSt parse) ((lineSplit P).2, ndEmits parse P) =
        ((lineSplit (P ++ cs.join)).2, ndEmits parse (P ++ cs.join)) := by
  intro cs
  induction cs with
  | nil => intro P h; simp
  | cons c rest ih =>
    intro P h
    have hjoin : P ++ (c :: rest).join = (P ++ c) ++ rest.join := by simp
    rw [hjoin] at h
    have hwfPc : ndWF parse ((lineSplit P).2 ++ c) = true := by
      have hleft : ndWF parse (P ++ c) = true := ndWF_append_left parse _ _ h
      exact ndWF_tail_append parse P c hleft
    have hstep : ndFeedSt parse ((lineSplit P).2, ndEmits parse P) c =
        ((lineSplit (P ++ c)).2, ndEmits parse (P ++ c)) := by
      rw [ndFeedSt, ndProcess_wf parse _ hwfPc]
      rw [← lineSplit_snd_append P c, ← ndEmits_append parse P c]
    rw [List.foldl_cons, hstep, ih (P ++ c) h, hjoin]

/-- C1 counterexample: the same byte streams delivered with different chunk
boundaries decode to different chunk sequences — the SSE example stream cut
between its `data: ` marker and its newline loses the content chunk, and the
newline-delimited stream with an unparsable middle line emits a different
sequence piecewise than in one shot. -/
theorem c1_split_dependence_counterexample :
    sseDecode Json.parse [str2l c1SseA, str2l c1SseB] ≠
      sseDecode Json.parse [str2l (c1SseA ++ c1SseB)] ∧
    ndDecode Json.parse [str2l c1NdA, str2l c1NdB, str2l c1NdC] ≠
      ndDecode Json.parse [str2l (c1NdA ++ c1NdB ++ c1NdC)] := by
  constructor
  · intro h
    have hl := congrArg List.length h
    have e1 : (sseDecode Json.parse [str2l c1SseA, str2l c1SseB]).length = 1 := rfl
    have e2 : (sseDecode Json.parse [str2l (c1SseA ++ c1SseB)]).length = 2 := rfl
    rw [e1, e2] at hl
    exact absurd hl (by decide)
  · intro h
    have hl := congrArg List.length h
    have e1 : (ndDecode Json.parse
        [str2l c1NdA, str2l c1NdB, str2l c1NdC]).length = 1 := rfl
    have e2 : (ndDecode Json.parse [str2l (c1NdA ++ c1NdB ++ c1NdC)]).length = 2 := rfl
    rw [e1, e2] at hl
    exact absurd hl (by decide)

/-- C1 amended: chunk-boundary independence holds for the newline-delimited
framing on well-formed streams — when every complete line of the byte stream
is blank after trimming or parses to a non-null JSON value, every way of
splitting the stream into network chunks decodes to the same ordered chunk
sequence as the one-shot decode.  (The counterexample shows the property
fails for the SSE framing, and for newline-delimited streams containing an
unparsable line.) -/
theorem c1_nd_boundary_independence_amended (cs : List (List Char))
    (h : ndWF Json.parse cs.join = true) :
    ndDecode Json.parse cs = ndDecode Json.parse [cs.join] := by
  have h0 : ndWF Json.parse ([] ++ cs.join) = true := by simpa using h
  have hfold := ndFold_wf Json.parse cs [] h0
  have hone := ndFold_wf Json.parse [cs.join] [] (by simpa using h)
  rw [ndDecode, ndDecode]
  have hstart : ((lineSplit ([] : List Char)).2, ndEmits Json.parse []) =
      (([] : List Char), ([] : List Json)) := rfl
  rw [hstart] at hfold hone
  rw [hfold, hone]
  simp

/-- C1 witness: the amended independence applied to a well-formed stream cut
inside its JSON object. -/
theorem c1_nd_boundary_independence_witness :
    ndWF Json.parse ([str2l c1wA, str2l c1wB].join) = true ∧
    ndDecode Json.parse [str2l c1wA, str2l c1wB] =
      ndDecode Json.parse [[str2l c1wA, str2l c1wB].join] :=
  ⟨by decide, c1_nd_boundary_independence_amended [str2l c1wA, str2l c1wB] (by decide)⟩

/-- C10 witness: the amended statement at the concrete body
`\x7b"data": []\x7d`, an object without a `models` field. -/
theorem c10_unvalidated_models_witness :
    (Json.obj [("data", Json.arr [])] ≠ Json.null) ∧
    ((∃ v, getModelsV1 (Json.obj [("data", Json.arr [])]) = .ok v) ∧
     (hasModelsField (Json.obj [("data", Json.arr [])]) = false →
      getModelsV1 (Json.obj [("data", Json.arr [])]) = .ok none)) :=
  ⟨fun h => Json.noConfusion h,
   c10_unvalidated_models_amended (Json.obj [("data", Json.arr [])])
     (fun h => Json.noConfusion h)⟩

end Vibed

namespace Vibed

/-- Joining newline-free lines and splitting again recovers exactly those
lines with an empty trailing segment. -/
theorem lineSplit_joinLines (lines : List (List Char))
    (h : ∀ l ∈ lines, '\n' ∉ l) :
    lineSplit (joinLines lines) = (lines, []) := by
  induction lines with
  | nil => rfl
  | cons l rest ih =>
    rw [joinLines, lineSplit_break l _ (h l (List.mem_cons_self l rest)),
        ih (fun x hx => h x (List.mem_cons_of_mem l hx))]

/-- The relation between a wire line and its decoded unit in the
well-formed-stream agreement statement. -/
def ndLineRel (l : List Char) (j : Json) : Prop :=
  '\n' ∉ l ∧ (jsTrim l).isEmpty = false ∧
    Json.parse (String.mk (jsTrim l)) = some j ∧ j.isNull = false

/-- Lines related to units are newline-free. -/
theorem ndLineRel_no_nl (lines : List (List Char)) (js : List Json)
    (h : List.Forall₂ ndLineRel lines js) : ∀ l ∈ lines, '\n' ∉ l := by
  induction h with
  | nil => intro l hl; exact absurd hl (List.not_mem_nil l)
  | cons hrel _ ih =>
    intro l hl
    rcases List.mem_cons.mp hl with h1 | h2
    · exact h1 ▸ hrel.1
    · exact ih l h2

/-- Lines related to units are all well-formed. -/
theorem ndLineRel_all_ok (lines : List (List Char)) (js : List Json)
    (h : List.Forall₂ ndLineRel lines js) :
    lines.all (ndLineOk Json.parse) = true := by
  induction h with
  | nil => rfl
  | cons hrel _ ih =>
    rw [List.all_cons, ih, Bool.and_true]
    rw [ndLineOk, hrel.2.2.1]
    simp [hrel.2.1, hrel.2.2.2]

/-- Lines related to units contribute exactly those units, in order. -/
theorem ndLineRel_filterMap (lines : List (List Char)) (js : List Json)
    (h : List.Forall₂ ndLineRel lines js) :
    lines.filterMap (ndLineOut Json.parse) = js := by
  induction h with
  | nil => rfl
  | @cons l j l1 l2 hrel htail ih =>
    rw [List.filterMap_cons]
    have hout : ndLineOut Json.parse l = some j := by
      rw [ndLineOut]
      simp only [hrel.2.1, Bool.false_eq_true, if_false]
      exact hrel.2.2.1
    rw [hout, ih]

/-- C4: feeding N well-formed newline-delimited lines in one network chunk
emits exactly their N parsed units, in input order, and the concatenated
content deltas equal the separately-computed non-streaming decode of the same
logical payload — the streaming and non-streaming paths agree on the final
text. -/
theorem c4_stream_nonstream_agreement (lines : List (List Char)) (js : List Json)
    (h : List.Forall₂ ndLineRel lines js) :
    ndDecode Json.parse [joinLines lines] = js ∧
    js.length = lines.length ∧
    nonStreamDecode (aggregateOf (fullOf js)) = some (fullOf js) := by
  have hnl := ndLineRel_no_nl lines js h
  have hsplit := lineSplit_joinLines lines hnl
  have hwf : ndWF Json.parse (joinLines lines) = true := by
    rw [ndWF, hsplit]
    exact ndLineRel_all_ok lines js h
  refine ⟨?_, h.length_eq.symm, rfl⟩
  rw [ndDecode, List.foldl_cons, List.foldl_nil, ndFeedSt,
      List.nil_append, ndProcess_wf Json.parse _ hwf, ndEmits, hsplit]
  rw [ndLineRel_filterMap lines js h]
  simp [ndFinish, jsTrim]

/-- C4 witness: the agreement applied to two concrete well-formed lines. -/
theorem c4_stream_nonstream_agreement_witness :
    List.Forall₂ ndLineRel [str2l c4Line1, str2l c4Line2] [c4Json1, c4Json2] ∧
    (ndDecode Json.parse [joinLines [str2l c4Line1, str2l c4Line2]] =
        [c4Json1, c4Json2] ∧
     ([c4Json1, c4Json2] : List Json).length =
        ([str2l c4Line1, str2l c4Line2] : List (List Char)).length ∧
     nonStreamDecode (aggregateOf (fullOf [c4Json1, c4Json2])) =
        some (fullOf [c4Json1, c4Json2])) :=
  have hrel : List.Forall₂ ndLineRel [str2l c4Line1, str2l c4Line2]
      [c4Json1, c4Json2] :=
    .cons ⟨by decide, rfl, rfl, rfl⟩ (.cons ⟨by decide, rfl, rfl, rfl⟩ .nil)
  ⟨hrel, c4_stream_nonstream_agreement [str2l c4Line1, str2l c4Line2]
    [c4Json1, c4Json2] hrel⟩

end Vibed

namespace Vibed

/-- Header lookup steps through a cons cell by name comparison. -/
theorem lookupHeader_cons (p : String × String) (rest : List (String × String))
    (k : String) :
    lookupHeader (p :: rest) k =
      if p.1 = k then some p.2 else lookupHeader rest k := by
  rw [lookupHeader, List.find?_cons]
  by_cases hp : p.1 = k
  · simp [hp]
  · simp [hp, lookupHeader]

/-- Header lookup over a concatenation prefers the earlier list. -/
theorem lookupHeader_append (a b : List (String × String)) (k : String) :
    lookupHeader (a ++ b) k = (lookupHeader a k).or (lookupHeader b k) := by
  rw [lookupHeader, List.find?_append]
  cases h : a.find? (fun p => p.1 = k) with
  | none => simp [lookupHeader, h]
  | some p => simp [lookupHeader, h]

/-- Overwriting one name leaves lookups of other names unchanged. -/
theorem map_set_lookup_ne (hs : List (String × String)) (k v k2 : String)
    (h : k2 ≠ k) :
    lookupHeader (hs.map (fun p => if p.1 = k then (k, v) else p)) k2 =
      lookupHeader hs k2 := by
  induction hs with
  | nil => rfl
  | cons p rest ih =>
    rw [List.map_cons]
    by_cases hp : p.1 = k
    · rw [if_pos hp, lookupHeader_cons, lookupHeader_cons, ih]
      rw [if_neg (fun hh => h hh.symm), if_neg (fun hh => h (hp ▸ hh).symm)]
    · rw [if_neg hp, lookupHeader_cons, lookupHeader_cons, ih]

/-- Overwriting a present name makes its lookup the new value. -/
theorem map_set_lookup_self (hs : List (String × String)) (k v : String)
    (hany : hs.any (fun p => p.1 = k) = true) :
    lookupHeader (hs.map (fun p => if p.1 = k then (k, v) else p)) k = some v := by
  induction hs with
  | nil => simp at hany
  | cons p rest ih =>
    rw [List.map_cons]
    by_cases hp : p.1 = k
    · rw [if_pos hp, lookupHeader_cons, if_pos rfl]
    · rw [if_neg hp, lookupHeader_cons, if_neg hp]
      apply ih
      rcases List.any_eq_true.mp hany with ⟨q, hq, hqk⟩
      rcases List.mem_cons.mp hq with h1 | h2
      · exact absurd (by simpa using (h1 ▸ hqk : decide (p.1 = k) = true)) hp
      · exact List.any_eq_true.mpr ⟨q, h2, hqk⟩

/-- The lookup behavior of `setHeader`: the set name reads back the new
value, every other name is unchanged. -/
theorem lookupHeader_setHeader (hs : List (String × String)) (k v k2 : String) :
    lookupHeader (setHeader hs k v) k2 =
      if k2 = k then some v else lookupHeader hs k2 := by
  rw [setHeader]
  by_cases hany : hs.any (fun p => p.1 = k) = true
  · rw [if_pos hany]
    by_cases hk : k2 = k
    · subst hk
      rw [if_pos rfl]
      exact map_set_lookup_self hs k2 v hany
    · rw [if_neg hk]
      exact map_set_lookup_ne hs k v k2 hk
  · rw [if_neg hany, lookupHeader_append]
    by_cases hk : k2 = k
    · subst hk
      have hnone : lookupHeader hs k2 = none := by
        rw [lookupHeader, List.find?_eq_none.mpr, Option.map_none']
        intro x hx hpx
        exact hany (List.any_eq_true.mpr ⟨x, hx, hpx⟩)
      rw [hnone, if_pos rfl]
      simp [lookupHeader_cons]
    · rw [if_neg hk]
      have h2 : lookupHeader [(k, v)] k2 = none := by
        rw [lookupHeader_cons, if_neg (fun hh => hk hh.symm)]
        rfl
      rw [h2, Option.or_none]

/-- The lookup behavior of `removeHeader`: the removed name reads back
nothing, every other name is unchanged. -/
theorem lookupHeader_removeHeader (hs : List (String × String)) (k0 k : String) :
    lookupHeader (removeHeader hs k0) k =
      if k = k0 then none else lookupHeader hs k := by
  induction hs with
  | nil =>
    rw [removeHeader, List.filter_nil]
    by_cases hk : k = k0
    · rw [if_pos hk]; rfl
    · rw [if_neg hk]
  | cons p rest ih =>
    rw [removeHeader, List.filter_cons]
    by_cases hp : p.1 = k0
    · rw [if_neg (by simp [hp])]
      rw [show rest.filter (fun p => p.1 ≠ k0) = removeHeader rest k0 from rfl, ih]
      by_cases hk : k = k0
      · simp only [if_pos hk]
      · simp only [if_neg hk]
        rw [lookupHeader_cons,
            if_neg (show ¬ p.1 = k from fun hh => hk (hh.symm.trans hp))]
    · rw [if_pos (by simp [hp]), lookupHeader_cons,
          show rest.filter (fun p => p.1 ≠ k0) = removeHeader rest k0 from rfl, ih]
      by_cases hpk : p.1 = k
      · have hkk0 : ¬ k = k0 := fun hh => hp (hpk.trans hh)
        rw [lookupHeader_cons]
        simp only [if_pos hpk, if_neg hkk0]
      · rw [lookupHeader_cons]
        simp only [if_neg hpk]

/-- Lookup after the copy loop: each name reads back its last non-`host`
inbound binding, or falls through to the starting accumulator. -/
theorem lookupHeader_copy (inbound : List (String × String)) (k : String) :
    ∀ acc, lookupHeader
        (inbound.foldl
          (fun acc kv => if kv.1 = "host" then acc else setHeader acc kv.1 kv.2)
          acc) k =
      (match lastNonHost inbound k with
       | some v => some v
       | none => lookupHeader acc k) := by
  induction inbound with
  | nil =>
    intro acc
    rw [List.foldl_nil]
    have h0 : lastNonHost [] k = none := rfl
    rw [h0]
  | cons kv rest ih =>
    intro acc
    rw [List.foldl_cons]
    by_cases hh : kv.1 = "host"
    · rw [if_pos hh, ih acc]
      have hstep : lastNonHost (kv :: rest) k = lastNonHost rest k := by
        rw [lastNonHost, lastNonHost, List.filter_cons, if_neg (by simp [hh])]
      rw [hstep]
    · rw [if_neg hh, ih (setHeader acc kv.1 kv.2)]
      have hstep : lastNonHost (kv :: rest) k =
          (lastNonHost rest k).or (if kv.1 = k then some kv.2 else none) := by
        rw [lastNonHost, lastNonHost, List.filter_cons, if_pos (by simp [hh]),
            List.reverse_cons, List.find?_append]
        cases hf : (rest.filter (fun p => p.1 ≠ "host")).reverse.find?
            (fun p => p.1 = k) with
        | some p => rfl
        | none =>
          by_cases hk : kv.1 = k
          · simp [List.find?_cons, hk]
          · simp [List.find?_cons, hk]
      rw [hstep]
      cases hr : lastNonHost rest k with
      | some v => rfl
      | none =>
        rw [lookupHeader_setHeader]
        by_cases hk : kv.1 = k
        · rw [if_pos hk, if_pos hk.symm]
          simp
        · rw [if_neg hk, if_neg (fun hh2 => hk hh2.symm)]
          simp

/-- The copy loop never produces a `host` binding. -/
theorem lastNonHost_host (inbound : List (String × String)) :
    lastNonHost inbound "host" = none := by
  rw [lastNonHost, List.find?_eq_none.mpr, Option.map_none']
  intro p hp
  have hmem := (List.mem_filter.mp (List.mem_reverse.mp hp)).2
  simpa using hmem

end Vibed

namespace Vibed

/-- C8 counterexample: a client-supplied content type is not preserved — with
a body present the outbound `content-type` is forced to `application/json`
even though the client sent `text/plain`; and a bodyless request loses its
inbound `content-length` header entirely. -/
theorem c8_content_type_counterexample :
    lookupHeader (onProxyReqHeaders
        [("host", "web"), ("content-type", "text/plain")] (some "\x7b\x7d"))
      "content-type" = some "application/json" ∧
    lookupHeader (onProxyReqHeaders [("host", "web"), ("content-length", "5")]
        none) "content-length" = none :=
  ⟨rfl, rfl⟩

/-- C8 amended: the handler copies every inbound header except `host` (each
name reads back its last non-`host` inbound binding), always removes
`content-length`, and when a body is present recomputes `content-length` from
the re-serialized body and forces `content-type: application/json`, a
client-supplied content type notwithstanding. -/
theorem c8_header_forwarding_amended (inbound : List (String × String))
    (b : String) (k : String) (_hk1 : k ≠ "host") (hk2 : k ≠ "content-length")
    (hk3 : k ≠ "content-type") :
    lookupHeader (onProxyReqHeaders inbound (some b)) "content-type" =
      some "application/json" ∧
    lookupHeader (onProxyReqHeaders inbound (some b)) "content-length" =
      some (toString b.utf8ByteSize) ∧
    lookupHeader (onProxyReqHeaders inbound none) "content-length" = none ∧
    lookupHeader (onProxyReqHeaders inbound (some b)) "host" = none ∧
    lookupHeader (onProxyReqHeaders inbound (some b)) k = lastNonHost inbound k ∧
    lookupHeader (onProxyReqHeaders inbound none) k = lastNonHost inbound k := by
  have hC : ∀ k2, lookupHeader
      (inbound.foldl
        (fun acc kv => if kv.1 = "host" then acc else setHeader acc kv.1 kv.2)
        []) k2 = lastNonHost inbound k2 := by
    intro k2
    rw [lookupHeader_copy inbound k2 []]
    cases lastNonHost inbound k2 with
    | none => rfl
    | some v => rfl
  refine ⟨?_, ?_, ?_, ?_, ?_, ?_⟩
  · rw [onProxyReqHeaders, lookupHeader_setHeader, if_neg (by decide),
        lookupHeader_setHeader, if_pos rfl]
  · rw [onProxyReqHeaders, lookupHeader_setHeader, if_pos rfl]
  · rw [onProxyReqHeaders, lookupHeader_removeHeader, if_pos rfl]
  · rw [onProxyReqHeaders, lookupHeader_setHeader, if_neg (by decide),
        lookupHeader_setHeader, if_neg (by decide), lookupHeader_removeHeader,
        if_neg (by decide), hC, lastNonHost_host]
  · rw [onProxyReqHeaders, lookupHeader_setHeader, if_neg hk2,
        lookupHeader_setHeader, if_neg hk3, lookupHeader_removeHeader,
        if_neg hk2, hC]
  · rw [onProxyReqHeaders, lookupHeader_removeHeader, if_neg hk2, hC]

/-- C8 witness: the amended statement at a concrete request carrying one
ordinary header, a host header, and a JSON body. -/
theorem c8_header_forwarding_witness :
    (("accept" : String) ≠ "host" ∧ ("accept" : String) ≠ "content-length" ∧
     ("accept" : String) ≠ "content-type") ∧
    (lookupHeader (onProxyReqHeaders [("host", "web"), ("accept", "x")]
        (some "\x7b\x7d")) "content-type" = some "application/json" ∧
     lookupHeader (onProxyReqHeaders [("host", "web"), ("accept", "x")]
        (some "\x7b\x7d")) "content-length" =
       some (toString ("\x7b\x7d" : String).utf8ByteSize) ∧
     lookupHeader (onProxyReqHeaders [("host", "web"), ("accept", "x")] none)
        "content-length" = none ∧
     lookupHeader (onProxyReqHeaders [("host", "web"), ("accept", "x")]
        (some "\x7b\x7d")) "host" = none ∧
     lookupHeader (onProxyReqHeaders [("host", "web"), ("accept", "x")]
        (some "\x7b\x7d")) "accept" =
       lastNonHost [("host", "web"), ("accept", "x")] "accept" ∧
     lookupHeader (onProxyReqHeaders [("host", "web"), ("accept", "x")] none)
        "accept" = lastNonHost [("host", "web"), ("accept", "x")] "accept") :=
  ⟨⟨by decide, by decide, by decide⟩,
   c8_header_forwarding_amended [("host", "web"), ("accept", "x")] "\x7b\x7d"
     "accept" (by decide) (by decide) (by decide)⟩

/-- C9 amended: the single-slash normalization establishes the invariant only
for URLs that do not end in a doubled separator — for every backend URL string
without query or fragment, not ending in `//`, and with a non-root path, the
constructed base path does not end with a trailing separator.  (The
counterexample shows a URL ending in `//` violates the invariant.) -/
theorem c9_basepath_no_separator_amended (u : List Char)
    (hnd : ¬ ['/', '/'] <:+ u)
    (hq : ∀ c ∈ u, c ≠ '?' ∧ c ≠ '#')
    (hroot : pathnameOf (normalizeApiUrl u) ≠ str2l "/") :
    lastCharIs (basePathOf u) '/' = false := by
  have hlast : normalizeApiUrl u ≠ [] → (normalizeApiUrl u).getLast? ≠ some '/' := by
    intro _ hlu
    rw [normalizeApiUrl] at hlu
    by_cases hone : lastCharIs u '/' = true
    · rw [if_pos hone] at hlu
      rcases List.eq_nil_or_concat u with hu | ⟨w, x, hu⟩
      · subst hu; simp [lastCharIs] at hone
      · have hx : x = '/' := by
          rw [hu] at hone
          simpa [lastCharIs, List.concat_eq_append] using hone
        rw [hu, List.concat_eq_append, List.dropLast_concat] at hlu
        rcases List.eq_nil_or_concat w with hw | ⟨w2, y, hw⟩
        · subst hw; simp at hlu
        · have hy : y = '/' := by
            rw [hw] at hlu
            simpa [List.concat_eq_append] using hlu
          apply hnd
          rw [hu, hw, List.concat_eq_append, List.concat_eq_append, hx, hy]
          exact ⟨w2, by simp⟩
    · rw [if_neg hone] at hlu
      exact hone (by simpa [lastCharIs] using hlu)
  have hmem : ∀ c ∈ normalizeApiUrl u, c ≠ '?' ∧ c ≠ '#' := by
    intro c hc
    rw [normalizeApiUrl] at hc
    by_cases hone : lastCharIs u '/' = true
    · rw [if_pos hone] at hc
      exact hq c (List.mem_of_mem_dropLast hc)
    · rw [if_neg hone] at hc
      exact hq c hc
  rw [basePathOf]
  set u2 := normalizeApiUrl u with hu2
  have hrest : (afterSchemeSep u2).takeWhile (fun c => c ≠ '?' ∧ c ≠ '#') =
      afterSchemeSep u2 := by
    apply List.takeWhile_eq_self_iff.mpr
    intro c hc
    have hcu : c ∈ u2 := by
      rw [afterSchemeSep] at hc
      cases hfs : findSub (str2l "://") u2 with
      | none => rw [hfs] at hc; exact hc
      | some i => rw [hfs] at hc; exact List.mem_of_mem_drop hc
    simpa using hmem c hcu
  rw [pathnameOf, hrest] at hroot ⊢
  set p := (afterSchemeSep u2).dropWhile (fun c => c ≠ '/') with hp
  by_cases hemp : p.isEmpty
  · rw [if_pos hemp] at hroot
    exact absurd rfl hroot
  · rw [if_neg hemp] at hroot ⊢
    have hpne : p ≠ [] := fun he => hemp (by rw [he]; rfl)
    have hsuf : p <:+ u2 := by
      have h1 : p <:+ afterSchemeSep u2 := List.dropWhile_suffix _
      have h2 : afterSchemeSep u2 <:+ u2 := by
        rw [afterSchemeSep]
        cases findSub (str2l "://") u2 with
        | none => exact List.suffix_refl u2
        | some i => exact List.drop_suffix _ _
      exact h1.trans h2
    obtain ⟨t, ht⟩ := hsuf
    have hne2 : u2 ≠ [] := by
      intro he
      rw [he] at ht
      exact hpne (List.append_eq_nil.mp ht).2
    have hgl : u2.getLast? = p.getLast? := by
      rw [← ht]
      exact List.getLast?_append_of_ne_nil t hpne
    have : p.getLast? ≠ some '/' := by
      rw [← hgl]
      exact hlast hne2
    simp [lastCharIs, this]

/-- C9 witness: the amended invariant applied to a configured URL with a
single trailing slash, which the normalization strips. -/
theorem c9_basepath_no_separator_witness :
    (¬ ['/', '/'] <:+ str2l "https://x/api/") ∧
    (∀ c ∈ str2l "https://x/api/", c ≠ '?' ∧ c ≠ '#') ∧
    pathnameOf (normalizeApiUrl (str2l "https://x/api/")) ≠ str2l "/" ∧
    lastCharIs (basePathOf (str2l "https://x/api/")) '/' = false :=
  ⟨by decide, by decide, by decide,
   c9_basepath_no_separator_amended (str2l "https://x/api/") (by decide)
     (by decide) (by decide)⟩

end Vibed
